import Mathlib

/-!
Verification of the song-identification pipeline of `src/app.py`
(YouTube Shorts Song Finder).

The Python source is shallowly embedded below.  Strings are modelled by
Lean `String` but every operation on them is performed on the underlying
character list (`String.data`), mirroring Python's character-level string
operations (`in`, `lower()`, `startswith`, `split`).  Python dicts used
as the cache preserve insertion order, so the cache is modelled as an
association list in insertion order; `d[k] = v` on a dict updates the
value in place when `k` is present (keeping its position) and appends
otherwise, which `dictInsert` reproduces.  The three external
capabilities (yt-dlp download, ffmpeg extraction, Shazam recognition)
are modelled as an oracle `Env` supplying their results, and the
pipeline additionally returns a `Trace` recording how often each
capability was invoked and whether the temporary workspace was released.
-/

namespace SongFinder

/-- Substring test on character lists: Python's `pat in s`.
`listHasSubstr pat s` is true iff `pat` occurs contiguously in `s`. -/
def listHasSubstr (pat : List Char) : List Char → Bool
  | [] => pat.isEmpty
  | c :: rest => pat.isPrefixOf (c :: rest) || listHasSubstr pat rest

/-- Python's `s.lower()` (the source only ever lowercases ASCII URLs). -/
def lowerStr (s : String) : String := String.mk (s.data.map Char.toLower)

/-- Python's `pat in s` on strings. -/
def strContains (s pat : String) : Bool := listHasSubstr pat.data s.data

/-- Python's `s.split(sep)` for a single-character separator. -/
def splitOnChar (sep : Char) : List Char → List (List Char)
  | [] => [[]]
  | c :: rest =>
    match splitOnChar sep rest with
    | [] => [[]]
    | h :: t => if c = sep then [] :: h :: t else (c :: h) :: t

/-- `MAX_CACHE_SIZE = 100` (app.py line 24). -/
def MAX_CACHE_SIZE : Nat := 100

/-- `AUDIO_DURATION = 15` (app.py line 23). -/
def AUDIO_DURATION : Nat := 15

/-- A key/value entry of a section's `metadata` list in the Shazam
payload: the source reads `meta.get('title')` and `meta.get('text')`. -/
structure SectionMeta where
  title : Option String
  text : Option String
deriving DecidableEq

/-- One entry of the payload's `sections` list: the source reads
`section.get('type')` and `section.get('metadata', [])`. -/
structure TrackSection where
  type : Option String
  metadata : Option (List SectionMeta)
deriving DecidableEq

/-- One entry of `track['hub']['actions']`: the source reads
`action.get('type')` and `action.get('uri', '')`. -/
structure HubAction where
  type : Option String
  uri : Option String
deriving DecidableEq

/-- `track['hub']`: the source only reads its `actions` key. -/
structure HubInfo where
  actions : Option (List HubAction)
deriving DecidableEq

/-- `track['share']`: the source only reads its `href` key. -/
structure ShareInfo where
  href : Option String
deriving DecidableEq

/-- `track['images']`: the presentation layer reads `coverart` and
`background`. -/
structure Images where
  coverart : Option String
  background : Option String
deriving DecidableEq

/-- `track['genres']`: the presentation layer reads `primary`. -/
structure Genres where
  primary : Option String
deriving DecidableEq

/-- The `track` record of a successful Shazam response; every field the
source accesses with `track.get(...)`, each `Option` because the payload
is loosely typed and any key may be absent. -/
structure Track where
  title : Option String
  subtitle : Option String
  sections : Option (List TrackSection)
  images : Option Images
  share : Option ShareInfo
  hub : Option HubInfo
  key : Option String
  genres : Option Genres
  urlparams : Option (List (String × String))
deriving DecidableEq

/-- The `song_data` dict built by `recognize_song_shazam`
(app.py lines 129-167). Fields added conditionally inside the loops are
`Option`; fields set unconditionally carry the source's `.get` default. -/
structure SongData where
  title : String
  subtitle : String
  artist : String
  sections : List TrackSection
  images : Images
  share : ShareInfo
  hub : HubInfo
  key : String
  genres : Genres
  urlparams : List (String × String)
  album : Option String
  release_date : Option String
  label : Option String
  spotify_uri : Option String
  apple_music_uri : Option String
  shazam_url : Option String
deriving DecidableEq

/-- The unconditional part of `song_data` (app.py lines 129-140). -/
def baseSongData (track : Track) : SongData where
  title := track.title.getD "Unknown Title"
  subtitle := track.subtitle.getD "Unknown Artist"
  artist := track.subtitle.getD "Unknown Artist"
  sections := track.sections.getD []
  images := track.images.getD { coverart := none, background := none }
  share := track.share.getD { href := none }
  hub := track.hub.getD { actions := none }
  key := track.key.getD ""
  genres := track.genres.getD { primary := none }
  urlparams := track.urlparams.getD []
  album := none
  release_date := none
  label := none
  spotify_uri := none
  apple_music_uri := none
  shazam_url := none

/-- Body of the inner metadata loop (app.py lines 146-152): the key is
compared for exact equality with `'Album'`, `'Released'`, `'Label'`. -/
def applySectionMeta (sd : SongData) (meta : SectionMeta) : SongData :=
  if meta.title = some "Album" then { sd with album := some (meta.text.getD "") }
  else if meta.title = some "Released" then { sd with release_date := some (meta.text.getD "") }
  else if meta.title = some "Label" then { sd with label := some (meta.text.getD "") }
  else sd

/-- Body of the sections loop (app.py lines 143-152): only sections
whose `type` equals `'SONG'` are scanned. -/
def applySection (sd : SongData) (sec : TrackSection) : SongData :=
  if sec.type = some "SONG" then (sec.metadata.getD []).foldl applySectionMeta sd
  else sd

/-- Body of the hub-actions loop (app.py lines 156-162): an action of
type `'uri'` is classified by substring match on the lowercased URI. -/
def applyHubAction (sd : SongData) (action : HubAction) : SongData :=
  if action.type = some "uri" then
    let uri := action.uri.getD ""
    if strContains (lowerStr uri) "spotify" then { sd with spotify_uri := some uri }
    else if strContains (lowerStr uri) "apple" then { sd with apple_music_uri := some uri }
    else sd
  else sd

/-- The share-link step (app.py lines 165-167). -/
def applyShare (sd : SongData) (share : ShareInfo) : SongData :=
  match share.href with
  | some href => { sd with shazam_url := some href }
  | none => sd

/-- The sections loop of `recognize_song_shazam`
(app.py lines 143-152). -/
def sectionsStage (secs : List TrackSection) (sd : SongData) : SongData :=
  secs.foldl applySection sd

/-- The hub-actions loop (app.py lines 155-162): runs only when the
hub carries an `actions` key. -/
def hubActionsStage (oActs : Option (List HubAction)) (sd : SongData) : SongData :=
  match oActs with
  | some actions => actions.foldl applyHubAction sd
  | none => sd

/-- The whole normalization of a matched `track` payload into
`song_data` (app.py lines 127-167): base fields, then the sections
loop, then the hub-actions loop, then the share link. -/
def extractSongData (track : Track) : SongData :=
  applyShare
    (hubActionsStage (track.hub.getD { actions := none }).actions
      (sectionsStage (track.sections.getD []) (baseSongData track)))
    (track.share.getD { href := none })

/-- Result of the raw Shazam call as seen by `recognize_song_shazam`:
a payload containing a `track` key, a response with no `track`
(no match), or a raised exception. -/
inductive RecognizeResult where
  | matched (track : Track)
  | noMatch
  | failed (msg : String)
deriving DecidableEq

/-- `recognize_song_shazam` (app.py lines 114-174): returns the pair
`(success, song_data-or-error-message)`. -/
def recognize_song_shazam (r : RecognizeResult) : Bool × (SongData ⊕ String) :=
  match r with
  | .matched track => (true, Sum.inl (extractSongData track))
  | .noMatch => (false, Sum.inr "No song recognized by Shazam")
  | .failed msg => (false, Sum.inr ("Shazam recognition failed: " ++ msg))

/-- The result dict of `process_video`:
`{'success': bool, 'error': str-or-None, 'song_data': dict-or-None}`. -/
structure Outcome where
  success : Bool
  error : Option String
  song_data : Option SongData
deriving DecidableEq

/-- The in-memory cache `self.cache`: a Python dict in insertion order,
keys are URL hashes, values are cached outcomes. -/
abbrev Cache := List (String × Outcome)

/-- `get_url_hash` (app.py lines 55-57) is `hashlib.md5(url).hexdigest()`:
a deterministic fingerprint of the raw URL.  The pipeline relies only on
it being a deterministic function of the URL, so the digest computation
itself is embedded as the identity fingerprint. -/
def get_url_hash (url : String) : String := url

/-- Python dict lookup `cache[k]` guarded by `k in cache`. -/
def cacheGet (c : Cache) (k : String) : Option Outcome :=
  match c.find? (fun p => p.1 == k) with
  | some p => some p.2
  | none => none

/-- Python dict assignment `cache[k] = v`: updates in place (keeping
the key's original position) when `k` is present, appends otherwise. -/
def dictInsert (c : Cache) (k : String) (v : Outcome) : Cache :=
  if c.any (fun p => p.1 == k) then
    c.map (fun p => if p.1 == k then (k, v) else p)
  else c ++ [(k, v)]

/-- `save_cache` (app.py lines 42-53): when the dict holds more than
`MAX_CACHE_SIZE` entries, keep only the last `MAX_CACHE_SIZE` items
(`items[-MAX_CACHE_SIZE:]`), i.e. evict oldest-inserted first.  The
file write itself is I/O and cannot alter the in-memory dict. -/
def save_cache (c : Cache) : Cache :=
  if c.length > MAX_CACHE_SIZE then c.drop (c.length - MAX_CACHE_SIZE) else c

/-- `is_valid_youtube_shorts_url` (app.py lines 59-67). -/
def shorts_patterns : List String :=
  ["youtube.com/shorts/", "youtu.be/", "m.youtube.com/shorts/", "youtube.com/watch?v="]

/-- `is_valid_youtube_shorts_url` (app.py lines 59-67): accept iff any
pattern occurs as a substring of the lowercased input. -/
def is_valid_youtube_shorts_url (url : String) : Bool :=
  shorts_patterns.any (fun pattern => strContains (lowerStr url) pattern)

/-- Oracle for the three external capabilities of one pipeline run:
the result of `download_video`, whether `Path(temp_dir).glob('video.*')`
finds the downloaded artifact, the result of `extract_audio_segment`,
and the raw Shazam response. -/
structure Env where
  fetchRes : Bool × String
  artifactFound : Bool
  extractRes : Bool × String
  recognizeRes : RecognizeResult
deriving DecidableEq

/-- Observable side effects of one `process_video` run: how many times
each external capability was invoked, and whether every temporary
workspace opened by the run was released (the `with
tempfile.TemporaryDirectory()` block releases on every exit path). -/
structure Trace where
  fetchCalls : Nat
  extractCalls : Nat
  recognizeCalls : Nat
  wsReleased : Bool
deriving DecidableEq

/-- `process_video` (app.py lines 176-226): cache lookup, then the
three-stage sequence inside a temporary workspace; only a successful
recognition is written to the cache (followed by `save_cache`). -/
def process_video (env : Env) (cache : Cache) (url : String) :
    Outcome × Cache × Trace :=
  let url_hash := get_url_hash url
  match cacheGet cache url_hash with
  | some cached => (cached, cache, ⟨0, 0, 0, true⟩)
  | none =>
    let (fok, fmsg) := env.fetchRes
    if fok = false then
      ({ success := false, error := some fmsg, song_data := none }, cache, ⟨1, 0, 0, true⟩)
    else if env.artifactFound = false then
      ({ success := false, error := some "Downloaded video file not found", song_data := none },
        cache, ⟨1, 0, 0, true⟩)
    else
      let (eok, emsg) := env.extractRes
      if eok = false then
        ({ success := false, error := some emsg, song_data := none }, cache, ⟨1, 1, 0, true⟩)
      else
        match recognize_song_shazam env.recognizeRes with
        | (_, Sum.inl sd) =>
          let result : Outcome := { success := true, error := none, song_data := some sd }
          let cache1 := save_cache (dictInsert cache url_hash result)
          (result, cache1, ⟨1, 1, 1, true⟩)
        | (_, Sum.inr errMsg) =>
          ({ success := false, error := some errMsg, song_data := none }, cache, ⟨1, 1, 1, true⟩)

/-- What `main` (app.py lines 358-369) does with a submitted URL:
an empty input is rejected with an error, an input failing
`is_valid_youtube_shorts_url` is rejected with a warning, and only
otherwise is `process_video` invoked. -/
inductive MainAction where
  | emptyUrlError
  | invalidUrlWarning
  | processed (o : Outcome) (cache : Cache) (t : Trace)
deriving DecidableEq

/-- The URL-handling gate of `main` (app.py lines 358-369). -/
def mainFindSong (env : Env) (cache : Cache) (url : String) : MainAction :=
  if url = "" then .emptyUrlError
  else if is_valid_youtube_shorts_url url = false then .invalidUrlWarning
  else
    let (o, cache1, t) := process_video env cache url
    .processed o cache1 t

/-- Spotify-link normalization in `display_song_result`
(app.py lines 266-272): a URI starting with `spotify:` is rewritten to
a web URL built from its last colon-separated segment
(`spotify_uri.split(':')[-1]`); any other URI is passed through. -/
def spotifyUrlChars (u : List Char) : List Char :=
  if "spotify:".data.isPrefixOf u then
    "https://open.spotify.com/track/".data ++ (splitOnChar ':' u).getLastD []
  else u

/-- String-level wrapper of `spotifyUrlChars`: the conversion applied
to `song_data['spotify_uri']` before rendering. -/
def spotify_web_url (spotify_uri : String) : String :=
  String.mk (spotifyUrlChars spotify_uri.data)

/-- A cache is well formed when every stored outcome is a success; the
orchestrator only ever writes successes, so this invariant holds for
every cache the program builds. -/
def cacheAllSuccess (c : Cache) : Bool := c.all (fun p => p.2.success)

/-- A Shazam `track` payload with every optional field absent. -/
def trackMin : Track where
  title := none
  subtitle := none
  sections := none
  images := none
  share := none
  hub := none
  key := none
  genres := none
  urlparams := none

/-- An oracle on which every external capability succeeds. -/
def envOk : Env where
  fetchRes := (true, "Video downloaded successfully")
  artifactFound := true
  extractRes := (true, "Audio extracted successfully")
  recognizeRes := .matched trackMin

/-- The successful outcome `process_video` produces under `envOk`. -/
def outcomeOk : Outcome where
  success := true
  error := none
  song_data := some (extractSongData trackMin)

/-- An oracle on which the fetch stage fails. -/
def envFetchFail : Env where
  fetchRes := (false, "Download failed: boom")
  artifactFound := true
  extractRes := (true, "Audio extracted successfully")
  recognizeRes := .matched trackMin

/-- One successful identification's cache write (app.py lines 221-222):
`self.cache[url_hash] = result` followed by `self.save_cache()`. -/
def put_and_save (c : Cache) (kv : String × Outcome) : Cache :=
  save_cache (dictInsert c kv.1 kv.2)

/-- `MAX_CACHE_SIZE + 1` distinct request keys paired with a success
outcome, for the capacity witness. -/
def distinctKeys (n : Nat) : List (String × Outcome) :=
  (List.range n).map (fun i => (String.mk (List.replicate i 'a'), outcomeOk))

/-- A second oracle result, used to overwrite a cached value. -/
def outcomeAlt : Outcome where
  success := true
  error := none
  song_data := none

/-- A payload whose only metadata key is spelled in upper case. -/
def trackUpper : Track :=
  { trackMin with sections := some [⟨some "SONG", some [⟨some "ALBUM", some "Y"⟩]⟩] }

/-- A payload whose only metadata key is spelled exactly `"Album"`. -/
def trackExact : Track :=
  { trackMin with sections := some [⟨some "SONG", some [⟨some "Album", some "Y"⟩]⟩] }

/-! ### Cache lemmas -/

theorem save_cache_eq_drop (c : Cache) :
    save_cache c = c.drop (c.length - MAX_CACHE_SIZE) := by
  unfold save_cache
  split
  · rfl
  · next hle =>
    have : c.length - MAX_CACHE_SIZE = 0 := by omega
    simp [this]

theorem cacheGet_eq_none_iff (c : Cache) (k : String) :
    cacheGet c k = none ↔ ∀ p ∈ c, p.1 ≠ k := by
  unfold cacheGet
  cases hf : c.find? (fun p => p.1 == k) with
  | none =>
    rw [List.find?_eq_none] at hf
    simpa using hf
  | some p =>
    have hmem := List.mem_of_find?_eq_some hf
    have hkey : p.1 = k := by simpa using List.find?_some hf
    simp only [reduceCtorEq, false_iff, not_forall]
    exact ⟨p, hmem, by simp [hkey]⟩

theorem cacheGet_some_mem {c : Cache} {k : String} {o : Outcome}
    (h : cacheGet c k = some o) : ∃ p, p ∈ c ∧ p.2 = o := by
  unfold cacheGet at h
  cases hf : c.find? (fun p => p.1 == k) with
  | none => rw [hf] at h; cases h
  | some p =>
    rw [hf] at h
    exact ⟨p, List.mem_of_find?_eq_some hf, by injection h⟩

/-- Inserting a key absent from the cache appends it at the end. -/
theorem dictInsert_fresh {c : Cache} {k : String} (v : Outcome)
    (h : cacheGet c k = none) : dictInsert c k v = c ++ [(k, v)] := by
  have hk := (cacheGet_eq_none_iff c k).mp h
  unfold dictInsert
  rw [if_neg]
  simp only [List.any_eq_true, not_exists, not_and]
  intro p hp
  simp [hk p hp]

/-- After a fresh insert followed by `save_cache`, the inserted entry
is still present (the just-inserted entry is never the one evicted). -/
theorem cacheGet_save_insert {c : Cache} {k : String} (v : Outcome)
    (h : cacheGet c k = none) :
    cacheGet (save_cache (dictInsert c k v)) k = some v := by
  have hk := (cacheGet_eq_none_iff c k).mp h
  rw [dictInsert_fresh v h, save_cache_eq_drop]
  have hlen : (c ++ [(k, v)]).length = c.length + 1 := by simp
  set d := (c ++ [(k, v)]).length - MAX_CACHE_SIZE with hd
  have hM : (1 : Nat) ≤ MAX_CACHE_SIZE := by decide
  have hdle : d ≤ c.length := by omega
  rw [List.drop_append_of_le_length hdle]
  unfold cacheGet
  rw [List.find?_append]
  have hnone : (c.drop d).find? (fun p => p.1 == k) = none := by
    rw [List.find?_eq_none]
    intro p hp
    simp [hk p (List.mem_of_mem_drop hp)]
  rw [hnone]
  simp

/-- A cache hit returns the cached outcome unchanged, leaves the cache
unchanged, and invokes no external capability. -/
theorem process_video_hit (env : Env) (c : Cache) (u : String) (o : Outcome)
    (h : cacheGet c (get_url_hash u) = some o) :
    process_video env c u = (o, c, ⟨0, 0, 0, true⟩) := by
  simp [process_video, h]

/-! ### Claims -/

/-- Claim C1 (idempotent caching): if a `process_video` call returns a
success outcome, then afterwards the cache holds that very outcome
under the URL's key, and any later call for the same URL made while
that entry is still present — under any behavior of the external
capabilities — returns exactly the same outcome, leaves the cache
unchanged, and invokes none of the fetcher, extractor, recognizer. -/
theorem claim1_idempotent_caching (env : Env) (c : Cache) (u : String)
    (o : Outcome) (c1 : Cache) (t : Trace)
    (h : process_video env c u = (o, c1, t)) (hs : o.success = true) :
    cacheGet c1 (get_url_hash u) = some o ∧
    ∀ (env2 : Env) (c2 : Cache), cacheGet c2 (get_url_hash u) = some o →
      process_video env2 c2 u = (o, c2, ⟨0, 0, 0, true⟩) := by
  refine ⟨?_, fun env2 c2 h2 => process_video_hit env2 c2 u o h2⟩
  obtain ⟨⟨fok, fmsg⟩, af, ⟨eok, emsg⟩, rr⟩ := env
  cases hget : cacheGet c (get_url_hash u) with
  | some cached =>
    rw [process_video_hit _ c u cached hget] at h
    simp only [Prod.mk.injEq] at h
    obtain ⟨rfl, rfl, rfl⟩ := h
    exact hget
  | none =>
    cases fok <;> cases af <;> cases eok <;> cases rr <;>
      simp only [process_video, hget, recognize_song_shazam, Bool.false_eq_true,
        Bool.true_eq_false, if_true, if_false, ite_true, ite_false, Prod.mk.injEq] at h <;>
      obtain ⟨rfl, rfl, rfl⟩ := h <;>
      first
        | (exact cacheGet_save_insert _ hget)
        | (exact absurd hs (by simp))

/-- Witness for C1: a concrete run under `envOk` succeeds, caches its
outcome, and the theorem's conclusion holds there. -/
theorem claim1_idempotent_caching_witness :
    process_video envOk [] "u" =
      (outcomeOk, [("u", outcomeOk)], ⟨1, 1, 1, true⟩) ∧
    cacheGet [("u", outcomeOk)] (get_url_hash "u") = some outcomeOk :=
  ⟨by decide, (claim1_idempotent_caching envOk [] "u" outcomeOk [("u", outcomeOk)]
      ⟨1, 1, 1, true⟩ (by decide) rfl).1⟩

/-- Every outcome written by the pipeline is a success, so inserting a
success into a well-formed cache and trimming keeps it well formed. -/
theorem cacheAllSuccess_save_insert {c : Cache} {k : String} {v : Outcome}
    (hwf : cacheAllSuccess c = true) (hv : v.success = true) :
    cacheAllSuccess (save_cache (dictInsert c k v)) = true := by
  unfold cacheAllSuccess at hwf ⊢
  rw [List.all_eq_true] at hwf ⊢
  intro p hp
  have hsub : List.Sublist (save_cache (dictInsert c k v)) (dictInsert c k v) := by
    rw [save_cache_eq_drop]
    exact List.drop_sublist _ _
  have hp2 : p ∈ dictInsert c k v := hsub.subset hp
  unfold dictInsert at hp2
  split at hp2
  · obtain ⟨q, hq, hfq⟩ := List.mem_map.mp hp2
    by_cases hqk : q.1 == k
    · rw [if_pos hqk] at hfq
      simp [← hfq, hv]
    · rw [if_neg hqk] at hfq
      exact hfq ▸ hwf q hq
  · rcases List.mem_append.mp hp2 with hin | hin
    · exact hwf p hin
    · simp only [List.mem_singleton] at hin
      simp [hin, hv]

/-- Claim C2 (cache non-poisoning): starting from a cache that holds
only success outcomes, if `process_video` returns a failure outcome
then the cache is unchanged — in particular the URL's key is absent and
the size is the same — and in every case the resulting cache still
holds only success outcomes (only successes are ever written). -/
theorem claim2_cache_non_poisoning (env : Env) (c : Cache) (u : String)
    (o : Outcome) (c1 : Cache) (t : Trace)
    (hwf : cacheAllSuccess c = true)
    (h : process_video env c u = (o, c1, t)) :
    (o.success = false →
      c1 = c ∧ cacheGet c1 (get_url_hash u) = none ∧ c1.length = c.length) ∧
    cacheAllSuccess c1 = true := by
  obtain ⟨⟨fok, fmsg⟩, af, ⟨eok, emsg⟩, rr⟩ := env
  cases hget : cacheGet c (get_url_hash u) with
  | some cached =>
    rw [process_video_hit _ c u cached hget] at h
    simp only [Prod.mk.injEq] at h
    obtain ⟨rfl, rfl, rfl⟩ := h
    refine ⟨fun hfail => ?_, hwf⟩
    obtain ⟨p, hp, hpo⟩ := cacheGet_some_mem hget
    have hsucc : p.2.success = true := by
      simpa using List.all_eq_true.mp hwf p hp
    rw [hpo, hfail] at hsucc
    cases hsucc
  | none =>
    cases fok <;> cases af <;> cases eok <;> cases rr <;>
      simp only [process_video, hget, recognize_song_shazam, Bool.false_eq_true,
        Bool.true_eq_false, if_true, if_false, ite_true, ite_false, Prod.mk.injEq] at h <;>
      obtain ⟨rfl, rfl, rfl⟩ := h <;>
      first
        | exact ⟨fun _ => ⟨rfl, hget, rfl⟩, hwf⟩
        | exact ⟨fun hfail => absurd hfail (by simp),
            cacheAllSuccess_save_insert hwf rfl⟩

/-- Witness for C2: a concrete fetch-failure run on the empty cache
leaves the cache empty. -/
theorem claim2_cache_non_poisoning_witness :
    cacheAllSuccess ([] : Cache) = true ∧
    (([] : Cache) = [] ∧ cacheGet ([] : Cache) (get_url_hash "u") = none ∧
      ([] : Cache).length = ([] : Cache).length) :=
  ⟨rfl, (claim2_cache_non_poisoning envFetchFail [] "u"
      { success := false, error := some "Download failed: boom", song_data := none }
      [] ⟨1, 0, 0, true⟩ rfl (by decide)).1 rfl⟩

/-- Claim C5 (fetch-failure short-circuit): on a cache miss, if the
fetch stage reports failure or no downloaded artifact is found, the
pipeline returns a failure immediately: the extractor and recognizer
are never invoked (their call counts are 0), the cache is unchanged,
and the temporary workspace is released. -/
theorem claim5_fetch_failure_short_circuit (env : Env) (c : Cache) (u : String)
    (hmiss : cacheGet c (get_url_hash u) = none)
    (hf : env.fetchRes.1 = false ∨ env.artifactFound = false) :
    process_video env c u =
      ({ success := false,
         error := some (if env.fetchRes.1 = false then env.fetchRes.2
           else "Downloaded video file not found"),
         song_data := none }, c, ⟨1, 0, 0, true⟩) := by
  obtain ⟨⟨fok, fmsg⟩, af, ⟨eok, emsg⟩, rr⟩ := env
  cases fok
  · simp [process_video, hmiss]
  · cases af
    · simp [process_video, hmiss]
    · simp at hf

/-- Witness for C5: the concrete fetch-failure oracle on the empty
cache. -/
theorem claim5_fetch_failure_short_circuit_witness :
    cacheGet ([] : Cache) (get_url_hash "u") = none ∧
    (envFetchFail.fetchRes.1 = false ∨ envFetchFail.artifactFound = false) ∧
    process_video envFetchFail [] "u" =
      ({ success := false,
         error := some (if envFetchFail.fetchRes.1 = false then envFetchFail.fetchRes.2
           else "Downloaded video file not found"),
         song_data := none }, [], ⟨1, 0, 0, true⟩) :=
  ⟨rfl, Or.inl rfl,
    claim5_fetch_failure_short_circuit envFetchFail [] "u" rfl (Or.inl rfl)⟩

/-! ### Cache capacity (claim C3) -/

theorem save_cache_of_le {c : Cache} (h : c.length ≤ MAX_CACHE_SIZE) :
    save_cache c = c := by
  rw [save_cache_eq_drop]
  have hz : c.length - MAX_CACHE_SIZE = 0 := by omega
  simp [hz]

theorem save_cache_length_le (c : Cache) :
    (save_cache c).length ≤ MAX_CACHE_SIZE := by
  rw [save_cache_eq_drop, List.length_drop]
  have hM : (1 : Nat) ≤ MAX_CACHE_SIZE := by decide
  omega

/-- Keeping the newest `n` entries commutes with later appends: trimming
early never changes which entries ultimately survive. -/
theorem drop_eq_of_suffix_of_le {α : Type} {n : Nat} {s l : List α}
    (h : List.IsSuffix s l) (hn : n ≤ s.length) :
    l.drop (l.length - n) = s.drop (s.length - n) := by
  obtain ⟨w, rfl⟩ := h
  rw [List.length_append]
  have harith : w.length + s.length - n = w.length + (s.length - n) := by omega
  rw [harith, List.drop_append]

theorem save_cache_append_save_cache (l1 l2 : Cache) :
    save_cache (save_cache l1 ++ l2) = save_cache (l1 ++ l2) := by
  by_cases hle : l1.length ≤ MAX_CACHE_SIZE
  · rw [save_cache_of_le hle]
  · rw [save_cache_eq_drop l1, save_cache_eq_drop, save_cache_eq_drop]
    have hsuf : List.IsSuffix (l1.drop (l1.length - MAX_CACHE_SIZE) ++ l2) (l1 ++ l2) := by
      obtain ⟨w, hw⟩ := List.drop_suffix (l1.length - MAX_CACHE_SIZE) l1
      exact ⟨w, by rw [← List.append_assoc, hw]⟩
    have hlen : (l1.drop (l1.length - MAX_CACHE_SIZE) ++ l2).length =
        MAX_CACHE_SIZE + l2.length := by
      rw [List.length_append, List.length_drop]
      omega
    exact (drop_eq_of_suffix_of_le hsuf (by omega)).symm

/-- Folding fresh successful inserts over the cache keeps exactly the
trimmed tail of everything ever inserted. -/
theorem foldl_put_and_save (kvs : List (String × Outcome)) :
    ∀ c : Cache, (((c ++ kvs).map Prod.fst).Nodup) → c.length ≤ MAX_CACHE_SIZE →
    kvs.foldl put_and_save c = save_cache (c ++ kvs) := by
  induction kvs with
  | nil =>
    intro c hnd hle
    rw [List.foldl_nil, List.append_nil, save_cache_of_le hle]
  | cons kv rest ih =>
    intro c hnd hle
    have hnd2 : ((c ++ [kv]) ++ rest).map Prod.fst |>.Nodup := by
      rw [List.append_assoc]
      simpa using hnd
    have hfresh : cacheGet c kv.1 = none := by
      rw [cacheGet_eq_none_iff]
      intro p hp hpk
      rw [List.map_append, List.nodup_append] at hnd
      obtain ⟨-, -, hdisj⟩ := hnd
      exact hdisj (List.mem_map.mpr ⟨p, hp, hpk⟩) (by simp)
    have hstep : put_and_save c kv = save_cache (c ++ [kv]) := by
      unfold put_and_save
      rw [dictInsert_fresh _ hfresh]
    have hndsub : ((save_cache (c ++ [kv]) ++ rest).map Prod.fst).Nodup := by
      refine List.Nodup.sublist ?_ hnd2
      refine List.Sublist.map Prod.fst ?_
      refine List.Sublist.append_right ?_ rest
      rw [save_cache_eq_drop]
      exact List.drop_sublist _ _
    rw [List.foldl_cons, hstep, ih (save_cache (c ++ [kv])) hndsub (save_cache_length_le _),
      save_cache_append_save_cache]
    rw [List.append_assoc]
    rfl

/-- Claim C3 (cache capacity, oldest-first eviction): starting from the
empty cache, inserting more than `MAX_CACHE_SIZE` distinct successful
keys leaves exactly `MAX_CACHE_SIZE` entries, and the surviving entries
are precisely the most recently inserted ones, in insertion order
(entries are evicted oldest-inserted first). -/
theorem claim3_cache_capacity_eviction (kvs : List (String × Outcome))
    (hnd : (kvs.map Prod.fst).Nodup) (hlen : MAX_CACHE_SIZE < kvs.length) :
    (kvs.foldl put_and_save []).length = MAX_CACHE_SIZE ∧
    kvs.foldl put_and_save [] = kvs.drop (kvs.length - MAX_CACHE_SIZE) := by
  have h := foldl_put_and_save kvs [] (by simpa using hnd) (by simp)
  rw [List.nil_append] at h
  refine ⟨?_, by rw [h, save_cache_eq_drop]⟩
  rw [h, save_cache_eq_drop, List.length_drop]
  omega

theorem distinctKeys_nodup (n : Nat) :
    ((distinctKeys n).map Prod.fst).Nodup := by
  unfold distinctKeys
  rw [List.map_map]
  have hinj : Function.Injective
      (fun i => String.mk (List.replicate i 'a')) := by
    intro a b hab
    have := congrArg (fun s => s.data.length) hab
    simpa using this
  exact List.Nodup.map hinj (List.nodup_range n)

/-- Witness for C3 at 101 distinct keys against the default capacity
of 100. -/
theorem claim3_cache_capacity_eviction_witness :
    ((distinctKeys 101).map Prod.fst).Nodup ∧
    MAX_CACHE_SIZE < (distinctKeys 101).length ∧
    ((distinctKeys 101).foldl put_and_save []).length = MAX_CACHE_SIZE :=
  ⟨distinctKeys_nodup 101, by simp [distinctKeys, MAX_CACHE_SIZE],
    (claim3_cache_capacity_eviction (distinctKeys 101) (distinctKeys_nodup 101)
      (by simp [distinctKeys, MAX_CACHE_SIZE])).1⟩

/-! ### Overwrite behavior (claim C9) -/

theorem find?_map_replace (c : Cache) (k : String) (v : Outcome)
    (h : c.any (fun p => p.1 == k) = true) :
    (c.map (fun p => if p.1 == k then (k, v) else p)).find?
      (fun p => p.1 == k) = some (k, v) := by
  induction c with
  | nil => cases h
  | cons q rest ih =>
    rw [List.any_cons, Bool.or_eq_true] at h
    by_cases hq : q.1 == k
    · rw [List.map_cons, if_pos hq, List.find?_cons_of_pos _ (by simp)]
    · rw [List.map_cons, if_neg hq, List.find?_cons_of_neg _ (by simpa using hq)]
      exact ih (h.resolve_left hq)

/-- Counterexample to C9 as stated: overwriting the value of the
already-present key `"a"` in a two-entry cache leaves `"a"` in its
original (oldest) position — it is not the most recently inserted
entry afterwards, so under capacity pressure it would be evicted first,
not last. -/
theorem claim9_counterexample :
    dictInsert [("a", outcomeOk), ("b", outcomeOk)] "a" outcomeAlt =
      [("a", outcomeAlt), ("b", outcomeOk)] ∧
    (dictInsert [("a", outcomeOk), ("b", outcomeOk)] "a" outcomeAlt).getLast? ≠
      some ("a", outcomeAlt) := by
  decide

/-- Claim C9, amended: a put of a key already present in the cache
overwrites its value in place and preserves the cache's key order (the
key keeps its original insertion position, so it is evicted according
to that original position, not last); it does not receive a fresh
most-recent position.  (In the pipeline such an overwrite is in fact
unreachable: a cache hit returns before any put.) -/
theorem claim9_overwrite_keeps_position (c : Cache) (k : String) (v : Outcome)
    (h : c.any (fun p => p.1 == k) = true) :
    (dictInsert c k v).map Prod.fst = c.map Prod.fst ∧
    cacheGet (dictInsert c k v) k = some v := by
  constructor
  · unfold dictInsert
    rw [if_pos h, List.map_map]
    refine List.map_congr_left ?_
    intro p hp
    by_cases hpk : p.1 == k
    · simp only [Function.comp_apply, if_pos hpk]
      exact (eq_of_beq hpk).symm
    · have hne : p.1 ≠ k := by simpa using hpk
      simp [hne]
  · unfold cacheGet dictInsert
    rw [if_pos h, find?_map_replace c k v h]

/-- Witness for C9 (amended) on a concrete two-entry cache. -/
theorem claim9_overwrite_keeps_position_witness :
    ([("a", outcomeOk), ("b", outcomeOk)] : Cache).any (fun p => p.1 == "a") = true ∧
    ((dictInsert [("a", outcomeOk), ("b", outcomeOk)] "a" outcomeAlt).map Prod.fst =
      ([("a", outcomeOk), ("b", outcomeOk)] : Cache).map Prod.fst ∧
      cacheGet (dictInsert [("a", outcomeOk), ("b", outcomeOk)] "a" outcomeAlt) "a" =
        some outcomeAlt) :=
  ⟨by decide, claim9_overwrite_keeps_position _ "a" outcomeAlt (by decide)⟩

/-! ### URL validation (claims C4 and C10) -/

/-- `listHasSubstr` is exactly contiguous-substring occurrence, the
semantics of Python's `in` operator on strings. -/
theorem listHasSubstr_iff (pat l : List Char) :
    listHasSubstr pat l = true ↔ ∃ pre post, l = pre ++ pat ++ post := by
  induction l with
  | nil =>
    unfold listHasSubstr
    constructor
    · intro h
      have hpat : pat = [] := by simpa using h
      exact ⟨[], [], by simp [hpat]⟩
    · rintro ⟨pre, post, hp⟩
      have := hp.symm
      simp only [List.append_assoc, List.append_eq_nil] at this
      simp [this.1, this.2.1]
  | cons c rest ih =>
    unfold listHasSubstr
    rw [Bool.or_eq_true]
    constructor
    · rintro (hpre | hsub)
      · rw [List.isPrefixOf_iff_prefix] at hpre
        obtain ⟨t, ht⟩ := hpre
        exact ⟨[], t, by simp [← ht]⟩
      · obtain ⟨pre, post, hp⟩ := ih.mp hsub
        exact ⟨c :: pre, post, by simp [hp]⟩
    · rintro ⟨pre, post, hp⟩
      cases pre with
      | nil =>
        left
        rw [List.isPrefixOf_iff_prefix]
        exact ⟨post, by simpa using hp.symm⟩
      | cons c2 pre2 =>
        right
        apply ih.mpr
        rw [List.cons_append, List.cons_append] at hp
        have h2 : rest = pre2 ++ pat ++ post := by
          have := congrArg List.tail hp
          simpa using this
        exact ⟨pre2, post, h2⟩

/-- Claim C10 (validation is bare substring containment): an input is
accepted exactly when its lowercased character sequence contains one of
the four patterns as a contiguous substring — no URL parsing — so a
non-YouTube URL that merely embeds a pattern in its query string is
accepted. -/
theorem claim10_validation_is_substring_containment :
    (∀ url : String, is_valid_youtube_shorts_url url = true ↔
      ∃ pattern ∈ shorts_patterns, ∃ pre post,
        (lowerStr url).data = pre ++ pattern.data ++ post) ∧
    is_valid_youtube_shorts_url "https://evil.example.com/page?next=youtu.be/abc" = true ∧
    is_valid_youtube_shorts_url "https://vimeo.com/12345678" = false := by
  refine ⟨?_, by decide, by decide⟩
  intro url
  unfold is_valid_youtube_shorts_url strContains
  rw [List.any_eq_true]
  constructor
  · rintro ⟨pattern, hmem, hc⟩
    exact ⟨pattern, hmem, (listHasSubstr_iff _ _).mp hc⟩
  · rintro ⟨pattern, hmem, hocc⟩
    exact ⟨pattern, hmem, (listHasSubstr_iff _ _).mpr hocc⟩

/-- Claim C4 (input validation gate): any input failing the URL-shape
check is rejected by `main` before `process_video` runs — as the
empty-URL error or the invalid-URL warning — so the fetcher is never
invoked and the cache is never consulted.  Concretely, `"not a url"`
fails validation while `"https://youtube.com/shorts/abc123"` passes. -/
theorem claim4_input_validation_gate :
    (∀ (env : Env) (c : Cache) (url : String),
      is_valid_youtube_shorts_url url = false →
        mainFindSong env c url = .emptyUrlError ∨
        mainFindSong env c url = .invalidUrlWarning) ∧
    is_valid_youtube_shorts_url "not a url" = false ∧
    is_valid_youtube_shorts_url "https://youtube.com/shorts/abc123" = true := by
  refine ⟨?_, by decide, by decide⟩
  intro env c url hbad
  unfold mainFindSong
  by_cases hu : url = ""
  · left
    rw [if_pos hu]
  · right
    rw [if_neg hu, if_pos hbad]

/-- Witness for C4 at the spec's own example input. -/
theorem claim4_input_validation_gate_witness :
    is_valid_youtube_shorts_url "not a url" = false ∧
    (mainFindSong envOk [] "not a url" = .emptyUrlError ∨
      mainFindSong envOk [] "not a url" = .invalidUrlWarning) :=
  ⟨by decide, claim4_input_validation_gate.1 envOk [] "not a url" (by decide)⟩

/-! ### Normalizer frame lemmas (claims C7 and C8) -/

theorem foldl_frame {β γ : Type} (f : SongData → β → SongData) (g : SongData → γ)
    (hf : ∀ sd b, g (f sd b) = g sd) :
    ∀ (l : List β) (sd : SongData), g (l.foldl f sd) = g sd := by
  intro l
  induction l with
  | nil => intro sd; rfl
  | cons b rest ih =>
    intro sd
    rw [List.foldl_cons, ih, hf]

/-- The metadata loop only writes `album`, `release_date`, `label`. -/
theorem applySectionMeta_keeps (sd : SongData) (m : SectionMeta) :
    (applySectionMeta sd m).title = sd.title ∧
    (applySectionMeta sd m).artist = sd.artist ∧
    (applySectionMeta sd m).spotify_uri = sd.spotify_uri ∧
    (applySectionMeta sd m).apple_music_uri = sd.apple_music_uri ∧
    (applySectionMeta sd m).shazam_url = sd.shazam_url := by
  unfold applySectionMeta
  split_ifs <;> exact ⟨rfl, rfl, rfl, rfl, rfl⟩

theorem applySection_keeps (sd : SongData) (sec : TrackSection) :
    (applySection sd sec).title = sd.title ∧
    (applySection sd sec).artist = sd.artist ∧
    (applySection sd sec).spotify_uri = sd.spotify_uri ∧
    (applySection sd sec).apple_music_uri = sd.apple_music_uri ∧
    (applySection sd sec).shazam_url = sd.shazam_url := by
  unfold applySection
  split
  · exact ⟨foldl_frame _ (fun sd => sd.title)
        (fun sd m => (applySectionMeta_keeps sd m).1) _ sd,
      foldl_frame _ (fun sd => sd.artist)
        (fun sd m => (applySectionMeta_keeps sd m).2.1) _ sd,
      foldl_frame _ (fun sd => sd.spotify_uri)
        (fun sd m => (applySectionMeta_keeps sd m).2.2.1) _ sd,
      foldl_frame _ (fun sd => sd.apple_music_uri)
        (fun sd m => (applySectionMeta_keeps sd m).2.2.2.1) _ sd,
      foldl_frame _ (fun sd => sd.shazam_url)
        (fun sd m => (applySectionMeta_keeps sd m).2.2.2.2) _ sd⟩
  · exact ⟨rfl, rfl, rfl, rfl, rfl⟩

theorem sectionsStage_keeps (secs : List TrackSection) (sd : SongData) :
    (sectionsStage secs sd).title = sd.title ∧
    (sectionsStage secs sd).artist = sd.artist ∧
    (sectionsStage secs sd).spotify_uri = sd.spotify_uri ∧
    (sectionsStage secs sd).apple_music_uri = sd.apple_music_uri ∧
    (sectionsStage secs sd).shazam_url = sd.shazam_url :=
  ⟨foldl_frame _ (fun sd => sd.title)
      (fun sd s => (applySection_keeps sd s).1) secs sd,
    foldl_frame _ (fun sd => sd.artist)
      (fun sd s => (applySection_keeps sd s).2.1) secs sd,
    foldl_frame _ (fun sd => sd.spotify_uri)
      (fun sd s => (applySection_keeps sd s).2.2.1) secs sd,
    foldl_frame _ (fun sd => sd.apple_music_uri)
      (fun sd s => (applySection_keeps sd s).2.2.2.1) secs sd,
    foldl_frame _ (fun sd => sd.shazam_url)
      (fun sd s => (applySection_keeps sd s).2.2.2.2) secs sd⟩

/-- The hub-actions loop only writes `spotify_uri`, `apple_music_uri`. -/
theorem applyHubAction_keeps (sd : SongData) (a : HubAction) :
    (applyHubAction sd a).title = sd.title ∧
    (applyHubAction sd a).artist = sd.artist ∧
    (applyHubAction sd a).album = sd.album ∧
    (applyHubAction sd a).release_date = sd.release_date ∧
    (applyHubAction sd a).label = sd.label ∧
    (applyHubAction sd a).shazam_url = sd.shazam_url := by
  unfold applyHubAction
  dsimp only
  split_ifs <;> exact ⟨rfl, rfl, rfl, rfl, rfl, rfl⟩

theorem hubActionsStage_keeps (o : Option (List HubAction)) (sd : SongData) :
    (hubActionsStage o sd).title = sd.title ∧
    (hubActionsStage o sd).artist = sd.artist ∧
    (hubActionsStage o sd).album = sd.album ∧
    (hubActionsStage o sd).release_date = sd.release_date ∧
    (hubActionsStage o sd).label = sd.label ∧
    (hubActionsStage o sd).shazam_url = sd.shazam_url := by
  cases o with
  | none => exact ⟨rfl, rfl, rfl, rfl, rfl, rfl⟩
  | some l =>
    exact ⟨foldl_frame _ (fun sd => sd.title)
        (fun sd a => (applyHubAction_keeps sd a).1) l sd,
      foldl_frame _ (fun sd => sd.artist)
        (fun sd a => (applyHubAction_keeps sd a).2.1) l sd,
      foldl_frame _ (fun sd => sd.album)
        (fun sd a => (applyHubAction_keeps sd a).2.2.1) l sd,
      foldl_frame _ (fun sd => sd.release_date)
        (fun sd a => (applyHubAction_keeps sd a).2.2.2.1) l sd,
      foldl_frame _ (fun sd => sd.label)
        (fun sd a => (applyHubAction_keeps sd a).2.2.2.2.1) l sd,
      foldl_frame _ (fun sd => sd.shazam_url)
        (fun sd a => (applyHubAction_keeps sd a).2.2.2.2.2) l sd⟩

/-- The share step only writes `shazam_url`. -/
theorem applyShare_keeps (sd : SongData) (share : ShareInfo) :
    (applyShare sd share).title = sd.title ∧
    (applyShare sd share).artist = sd.artist ∧
    (applyShare sd share).album = sd.album ∧
    (applyShare sd share).release_date = sd.release_date ∧
    (applyShare sd share).label = sd.label ∧
    (applyShare sd share).spotify_uri = sd.spotify_uri ∧
    (applyShare sd share).apple_music_uri = sd.apple_music_uri := by
  obtain ⟨href⟩ := share
  unfold applyShare
  cases href <;> exact ⟨rfl, rfl, rfl, rfl, rfl, rfl, rfl⟩

/-- Claim C8 (graceful partial payload): the normalizer is a total
function of the loosely-typed payload; a payload with no sections
normalizes with `album`/`release_date`/`label` absent, a missing title
or artist falls back to the `"Unknown ..."` sentinel, a missing hub or
hub without actions leaves both streaming links absent, and a missing
share link leaves the Shazam URL absent — each missing field
independently yields the absent/default output, never an error. -/
theorem claim8_graceful_partial_payload (t : Track) :
    ((t.sections = none ∨ t.sections = some []) →
      (extractSongData t).album = none ∧
      (extractSongData t).release_date = none ∧
      (extractSongData t).label = none) ∧
    (extractSongData t).title = t.title.getD "Unknown Title" ∧
    (extractSongData t).artist = t.subtitle.getD "Unknown Artist" ∧
    ((t.hub = none ∨ t.hub = some { actions := none }) →
      (extractSongData t).spotify_uri = none ∧
      (extractSongData t).apple_music_uri = none) ∧
    ((t.share = none ∨ t.share = some { href := none }) →
      (extractSongData t).shazam_url = none) := by
  obtain ⟨hsT, hsA, hsSp, hsAp, hsSh⟩ :=
    sectionsStage_keeps (t.sections.getD []) (baseSongData t)
  obtain ⟨hhT, hhA, hhAl, hhRe, hhLa, hhSh⟩ :=
    hubActionsStage_keeps ((t.hub.getD { actions := none }).actions)
      (sectionsStage (t.sections.getD []) (baseSongData t))
  obtain ⟨hpT, hpA, hpAl, hpRe, hpLa, hpSp, hpAp⟩ :=
    applyShare_keeps
      (hubActionsStage ((t.hub.getD { actions := none }).actions)
        (sectionsStage (t.sections.getD []) (baseSongData t)))
      (t.share.getD { href := none })
  have hext : extractSongData t =
      applyShare
        (hubActionsStage ((t.hub.getD { actions := none }).actions)
          (sectionsStage (t.sections.getD []) (baseSongData t)))
        (t.share.getD { href := none }) := rfl
  refine ⟨?_, ?_, ?_, ?_, ?_⟩
  · intro hsecs
    have hnil : t.sections.getD [] = ([] : List TrackSection) := by
      rcases hsecs with h | h <;> simp [h]
    rw [hnil] at hpAl hpRe hpLa hhAl hhRe hhLa hext
    exact ⟨by rw [hext, hpAl, hhAl]; rfl,
      by rw [hext, hpRe, hhRe]; rfl,
      by rw [hext, hpLa, hhLa]; rfl⟩
  · rw [hext, hpT, hhT, hsT]
    rfl
  · rw [hext, hpA, hhA, hsA]
    rfl
  · intro hhub
    have hact : (t.hub.getD { actions := none }).actions = none := by
      rcases hhub with h | h <;> simp [h]
    rw [hact] at hpSp hpAp hext
    exact ⟨by rw [hext, hpSp]; exact hsSp.trans rfl,
      by rw [hext, hpAp]; exact hsAp.trans rfl⟩
  · intro hshare
    have hhref : (t.share.getD { href := none }).href = none := by
      rcases hshare with h | h <;> simp [h]
    have hid : applyShare
        (hubActionsStage ((t.hub.getD { actions := none }).actions)
          (sectionsStage (t.sections.getD []) (baseSongData t)))
        (t.share.getD { href := none }) =
        hubActionsStage ((t.hub.getD { actions := none }).actions)
          (sectionsStage (t.sections.getD []) (baseSongData t)) := by
      unfold applyShare
      rw [hhref]
    rw [hext, hid, hhSh, hsSh]
    rfl

/-- Witness for C8 at the all-absent payload `trackMin`. -/
theorem claim8_graceful_partial_payload_witness :
    (trackMin.sections = none ∨ trackMin.sections = some []) ∧
    ((extractSongData trackMin).album = none ∧
      (extractSongData trackMin).release_date = none ∧
      (extractSongData trackMin).label = none) :=
  ⟨Or.inl rfl, (claim8_graceful_partial_payload trackMin).1 (Or.inl rfl)⟩

/-- Counterexample to C7 as stated: the source compares metadata keys
for exact (case-sensitive) equality with `'Album'`, so a key spelled
`"ALBUM"` does not populate the album field, contradicting the claimed
case-insensitive matching. -/
theorem claim7_counterexample :
    trackUpper.sections = some [⟨some "SONG", some [⟨some "ALBUM", some "Y"⟩]⟩] ∧
    (extractSongData trackUpper).album = none := by
  decide

/-- Claim C7, amended: within a section whose type is exactly `"SONG"`,
a key/value pair populates `album`/`release_date`/`label` exactly when
its key equals `"Album"`/`"Released"`/`"Label"` case-sensitively; any
other spelling (including other casings) is ignored. -/
theorem claim7_exact_key_match (ty key text : String) (t : Track)
    (h : t.sections = some [⟨some ty, some [⟨some key, some text⟩]⟩]) :
    (extractSongData t).album =
      (if ty = "SONG" ∧ key = "Album" then some text else none) ∧
    (extractSongData t).release_date =
      (if ty = "SONG" ∧ key = "Released" then some text else none) ∧
    (extractSongData t).label =
      (if ty = "SONG" ∧ key = "Label" then some text else none) := by
  obtain ⟨hhT, hhA, hhAl, hhRe, hhLa, hhSh⟩ :=
    hubActionsStage_keeps ((t.hub.getD { actions := none }).actions)
      (sectionsStage (t.sections.getD []) (baseSongData t))
  obtain ⟨hpT, hpA, hpAl, hpRe, hpLa, hpSp, hpAp⟩ :=
    applyShare_keeps
      (hubActionsStage ((t.hub.getD { actions := none }).actions)
        (sectionsStage (t.sections.getD []) (baseSongData t)))
      (t.share.getD { href := none })
  have hext : extractSongData t =
      applyShare
        (hubActionsStage ((t.hub.getD { actions := none }).actions)
          (sectionsStage (t.sections.getD []) (baseSongData t)))
        (t.share.getD { href := none }) := rfl
  have hcompute :
      (sectionsStage (t.sections.getD []) (baseSongData t)).album =
        (if ty = "SONG" ∧ key = "Album" then some text else none) ∧
      (sectionsStage (t.sections.getD []) (baseSongData t)).release_date =
        (if ty = "SONG" ∧ key = "Released" then some text else none) ∧
      (sectionsStage (t.sections.getD []) (baseSongData t)).label =
        (if ty = "SONG" ∧ key = "Label" then some text else none) := by
    rw [h]
    simp only [Option.getD_some, sectionsStage, List.foldl_cons, List.foldl_nil]
    by_cases hty : ty = "SONG"
    · subst hty
      by_cases hk1 : key = "Album"
      · subst hk1
        simp [applySection, applySectionMeta, baseSongData]
      · by_cases hk2 : key = "Released"
        · subst hk2
          simp [applySection, applySectionMeta, baseSongData]
        · by_cases hk3 : key = "Label"
          · subst hk3
            simp [applySection, applySectionMeta, baseSongData]
          · simp [applySection, applySectionMeta, baseSongData, hk1, hk2, hk3]
    · simp [applySection, applySectionMeta, baseSongData, hty]
  exact ⟨by rw [hext, hpAl, hhAl]; exact hcompute.1,
    by rw [hext, hpRe, hhRe]; exact hcompute.2.1,
    by rw [hext, hpLa, hhLa]; exact hcompute.2.2⟩

/-- Witness for C7 (amended) on a payload with key exactly `"Album"`. -/
theorem claim7_exact_key_match_witness :
    trackExact.sections = some [⟨some "SONG", some [⟨some "Album", some "Y"⟩]⟩] ∧
    (extractSongData trackExact).album =
      (if ("SONG" : String) = "SONG" ∧ ("Album" : String) = "Album"
        then some "Y" else none) :=
  ⟨rfl, (claim7_exact_key_match "SONG" "Album" "Y" trackExact rfl).1⟩

/-! ### Spotify link normalization (claim C6) -/

theorem splitOnChar_ne_nil (sep : Char) (l : List Char) :
    splitOnChar sep l ≠ [] := by
  cases l with
  | nil => simp [splitOnChar]
  | cons c rest =>
    unfold splitOnChar
    cases h : splitOnChar sep rest with
    | nil => simp
    | cons a t =>
      dsimp only
      split <;> simp

theorem splitOnChar_of_not_mem {sep : Char} {l : List Char} (h : sep ∉ l) :
    splitOnChar sep l = [l] := by
  induction l with
  | nil => rfl
  | cons c rest ih =>
    have hc : c ≠ sep := fun hh => h (hh ▸ List.mem_cons_self c rest)
    have hrest : sep ∉ rest := fun hh => h (List.mem_cons_of_mem c hh)
    unfold splitOnChar
    rw [ih hrest]
    simp [hc]

theorem splitOnChar_length_ge_two {sep : Char} {l : List Char} (h : sep ∈ l) :
    2 ≤ (splitOnChar sep l).length := by
  induction l with
  | nil => cases h
  | cons c rest ih =>
    unfold splitOnChar
    cases hs : splitOnChar sep rest with
    | nil => exact absurd hs (splitOnChar_ne_nil sep rest)
    | cons a t =>
      dsimp only
      by_cases hc : c = sep
      · simp [hc]
      · rw [if_neg hc]
        have hrest : sep ∈ rest := by
          rcases List.mem_cons.mp h with h1 | h2
          · exact absurd h1.symm hc
          · exact h2
        have h2 := ih hrest
        rw [hs] at h2
        simpa using h2

/-- The last split segment of `pre ++ sep :: id` is `id` whenever `id`
is free of the separator: Python's `s.split(sep)[-1]`. -/
theorem splitOnChar_getLastD {sep : Char} (id : List Char) (hid : sep ∉ id) :
    ∀ pre : List Char, (splitOnChar sep (pre ++ sep :: id)).getLastD [] = id := by
  intro pre
  induction pre with
  | nil =>
    rw [List.nil_append]
    unfold splitOnChar
    rw [splitOnChar_of_not_mem hid]
    simp
  | cons c pre2 ih =>
    show (splitOnChar sep (c :: (pre2 ++ sep :: id))).getLastD [] = id
    unfold splitOnChar
    cases hs : splitOnChar sep (pre2 ++ sep :: id) with
    | nil => exact absurd hs (splitOnChar_ne_nil _ _)
    | cons a t =>
      have hlast : (a :: t).getLastD [] = id := by
        rw [← hs]
        exact ih
      dsimp only
      by_cases hc : c = sep
      · rw [if_pos hc]
        rw [List.getLastD_cons]
        exact hlast
      · rw [if_neg hc]
        cases t with
        | nil =>
          have hmem : sep ∈ pre2 ++ sep :: id := by simp
          have h2 := splitOnChar_length_ge_two hmem
          rw [hs] at h2
          simp at h2
        | cons b t2 =>
          rw [List.getLastD_cons] at hlast ⊢
          rw [List.getLastD_cons] at hlast ⊢
          exact hlast

/-- Counterexample to C6 as stated: `"spotify:album:xyz"` is classified
as a Spotify link by the hub-action scan and is not of the opaque
`spotify:track:<id>` form, yet the display conversion rewrites it
instead of passing it through unchanged (it becomes a `/track/` URL). -/
theorem claim6_counterexample :
    (applyHubAction (extractSongData trackMin)
        ⟨some "uri", some "spotify:album:xyz"⟩).spotify_uri =
      some "spotify:album:xyz" ∧
    ("spotify:track:".data.isPrefixOf "spotify:album:xyz".data) = false ∧
    spotify_web_url "spotify:album:xyz" ≠ "spotify:album:xyz" ∧
    spotify_web_url "spotify:album:xyz" = "https://open.spotify.com/track/xyz" := by
  decide

/-- Claim C6, amended: a URI of the opaque form `spotify:track:<id>`
(with a colon-free id) is rewritten to
`https://open.spotify.com/track/<id>` — in particular the spec's own
example — while only URIs that do not start with `spotify:` pass
through unchanged; every `spotify:`-prefixed URI, track or not, is
rewritten from its last colon segment. -/
theorem claim6_spotify_uri_rewrite :
    (∀ id : List Char, ':' ∉ id →
      spotifyUrlChars ("spotify:track:".data ++ id) =
        "https://open.spotify.com/track/".data ++ id) ∧
    (∀ uri : String, "spotify:".data.isPrefixOf uri.data = false →
      spotify_web_url uri = uri) ∧
    spotify_web_url "spotify:track:4cOdK2wGLETKBW3PvgPWqT" =
      "https://open.spotify.com/track/4cOdK2wGLETKBW3PvgPWqT" := by
  refine ⟨?_, ?_, by decide⟩
  · intro id hid
    unfold spotifyUrlChars
    have hpre : ("spotify:".data.isPrefixOf ("spotify:track:".data ++ id)) = true := by
      rw [List.isPrefixOf_iff_prefix]
      refine ⟨"track:".data ++ id, ?_⟩
      rw [← List.append_assoc,
        (by decide : "spotify:".data ++ "track:".data = "spotify:track:".data)]
    rw [hpre]
    simp only [if_true]
    have hsplit : "spotify:track:".data ++ id = "spotify:track".data ++ ':' :: id := by
      rw [(by decide : "spotify:track:".data = "spotify:track".data ++ [':']),
        List.append_assoc]
      rfl
    rw [hsplit, splitOnChar_getLastD id hid "spotify:track".data]
  · intro uri hnot
    obtain ⟨d⟩ := uri
    unfold spotify_web_url spotifyUrlChars
    rw [hnot]
    simp

/-- Witness for C6 (amended) at the spec's example track id. -/
theorem claim6_spotify_uri_rewrite_witness :
    (':' ∉ "4cOdK2wGLETKBW3PvgPWqT".data) ∧
    spotifyUrlChars ("spotify:track:".data ++ "4cOdK2wGLETKBW3PvgPWqT".data) =
      "https://open.spotify.com/track/".data ++ "4cOdK2wGLETKBW3PvgPWqT".data :=
  ⟨by decide, claim6_spotify_uri_rewrite.1 "4cOdK2wGLETKBW3PvgPWqT".data (by decide)⟩

end SongFinder
